import Mathlib

/-!
# SmartTpl — verification of the runtime value protocol and callback ABI

Shallow embedding of the SMART-TPL template engine's runtime, translated
from the C++ sources: `src/src/callbacks.cpp`, `src/src/bytecode.cpp`,
`src/src/handler.h`, `src/src/data.cpp`, `src/include/boolean.h`,
`src/include/boolvalue.h`, `src/include/datevalue.h`.

Byte buffers that the C code passes as `(const char *, size_t)` pairs are
modelled as Lean `String`s (the length of the string is the `size_t`
argument); `std::map` keyed by `const char *` under a `strcmp` comparator is
modelled as an association list with content-equality lookup, insert-or-assign
and erase.  C++ functions that may return a null `Value*` are modelled as
returning `Option Value`; a non-null guarantee appears as a total function
into `Value`.
-/

namespace SmartTpl

/-! ## Association-list model of `std::map<const char *, ..., cmp_str>`

`cmp_str` compares keys with `std::strcmp`, so lookup is by string content;
`m[k] = v` is insert-or-assign and `m.erase(k)` removes the binding.  The
model keeps the bindings in a list and is faithful up to `find`/lookup
behaviour, which is all the embedded code uses. -/

def mapLookup {α : Type} : List (String × α) → String → Option α
  | [], _ => none
  | (k, v) :: rest, key => if key = k then some v else mapLookup rest key

def mapErase {α : Type} : List (String × α) → String → List (String × α)
  | [], _ => []
  | (k0, v) :: rest, k => if k0 = k then mapErase rest k else (k0, v) :: mapErase rest k

def mapInsert {α : Type} (l : List (String × α)) (k : String) (v : α) : List (String × α) :=
  (k, v) :: mapErase l k

/-! ## Modifiers -/

/-- A modifier handle (`SmartTpl::Modifier *`).  The two built-ins registered
by the `Data` constructor are `toupper` and `tolower`; further user modifiers
are identified by a tag. -/
inductive ModifierKind where
  | toupper
  | tolower
  | user (tag : Nat)
deriving DecidableEq

/-! ## The value model

`SmartTpl::Value` is a virtual interface; the concrete kinds embedded here
are the ones the source ships: the shared empty value (`EmptyValue`, the
`static EmptyValue empty` of callbacks.cpp), strings, numerics, booleans
(`src/include/boolean.h`), dates (`src/include/datevalue.h`), lists and
string-keyed maps. -/

inductive Value where
  | empty
  | vstring (s : String)
  | vnumeric (n : Int)
  | vboolean (b : Bool)
  | vdate (format : String) (timestamp : Int)
  | vlist (members : List Value)
  | vmap (entries : List (String × Value))

/-- `BooleanValue::toNumeric` as written in `src/include/boolean.h`
(lines 59-66): the method body is `return 0;` regardless of the stored
boolean. -/
def BooleanValue.toNumeric (_boolean : Bool) : Int := 0

/-- `BoolValue::toNumeric` as written in `src/include/boolvalue.h`
(lines 46-53): the method body is `return _value;`, and converting a C++
`bool` to `numeric_t` yields 1 for true and 0 for false. -/
def BoolValue.toNumeric (_value : Bool) : Int := if _value then 1 else 0

/-- `DateValue::toNumeric` from `src/include/datevalue.h`: the stored
timestamp, except that a stored timestamp of 0 means "now": the method then
returns `std::time(NULL)`, i.e. the current time, passed here explicitly as
`now`. -/
def DateValue.toNumeric (timestamp : Int) (now : Int) : Int :=
  if timestamp = 0 then now else timestamp

/-- The effective timestamp `DateValue::initializeDate` formats
(`src/include/datevalue.h` lines 42-84): the stored `_timestamp`, or the
current time (`std::time(NULL)`, passed explicitly as `now`) when the stored
value is 0. -/
def DateValue.effectiveTime (timestamp : Int) (now : Int) : Int :=
  if timestamp = 0 then now else timestamp

/-- Modelled from the spec: `strftime(3)` is a libc routine, not code of this
repository.  Only two facts about it matter here: its output is a function of
the format string and the formatted time, and `DateValue::initializeDate`
feeds it `DateValue.effectiveTime`.  The placeholder records both inputs. -/
def strftimeModel (format : String) (t : Int) : String :=
  format ++ "@" ++ t.repr

/-- `Value::toString`.  The boolean and date cases are transcribed from
`src/include/boolean.h` and `src/include/datevalue.h`; `EmptyValue`,
`StringValue`, `NumericValue`, `ListValue` and `MapValue` are not under
`src/`, so those cases are modelled from the spec (§4.8: empty/"": all
conversions of the empty value yield the empty string, a numeric prints in
decimal form; list/map have no specified string form and render empty). -/
def Value.toStringV (v : Value) (now : Int) : String :=
  match v with
  | .empty => ""
  | .vstring s => s
  | .vnumeric n => n.repr
  | .vboolean b => if b then "true" else "false"
  | .vdate format timestamp => strftimeModel format (DateValue.effectiveTime timestamp now)
  | .vlist _ => ""
  | .vmap _ => ""

/-- `Value::toNumeric`.  Boolean and date cases from the source
(`boolean.h`, `datevalue.h`); string parsing is modelled from the spec
(§4.8: best-effort base-10 parse, zero on failure; `StringValue` is not
under `src/`). -/
def Value.toNumeric (v : Value) (now : Int) : Int :=
  match v with
  | .empty => 0
  | .vstring s => (s.toInt?).getD 0
  | .vnumeric n => n
  | .vboolean b => BooleanValue.toNumeric b
  | .vdate _ timestamp => DateValue.toNumeric timestamp now
  | .vlist _ => 0
  | .vmap _ => 0

/-- `Value::size` (length of the string form).  The boolean case is the
literal `_boolean ? 4 : 5` of `boolean.h`; the rest is the length of
`toStringV`. -/
def Value.size (v : Value) (now : Int) : Nat :=
  match v with
  | .vboolean b => if b then 4 else 5
  | v => (v.toStringV now).length

/-- `Value::member(name, size)`: named member access.  `boolean.h` and
`datevalue.h` return `nullptr`; a map looks the name up (modelled from the
spec §4.8 — `MapValue` is not under `src/`); every other kind has no
members. -/
def Value.member (v : Value) (name : String) : Option Value :=
  match v with
  | .vmap entries => mapLookup entries name
  | _ => none

/-- `Value::member(position)`: positional member access.  A list yields its
i-th element (modelled from the spec §4.8 — `ListValue` is not under
`src/`); every other embedded kind returns `nullptr` in the source. -/
def Value.memberAt (v : Value) (pos : Nat) : Option Value :=
  match v with
  | .vlist members => members.get? pos
  | _ => none

/-- Whether a value's conversions are independent of the render time: the
only time-dependent kind is a date whose stored timestamp is 0 (meaning "now
at render time", per `datevalue.h`). -/
def Value.timeIndependent (v : Value) : Bool :=
  match v with
  | .vdate _ timestamp => timestamp != 0
  | _ => true

/-! ## Data (`src/src/data.cpp`, `src/include/data.h`) -/

structure Data where
  _variables : List (String × Value)
  _modifiers : List (String × ModifierKind)

/-- `Data::modifier(name, Modifier*)` — registration
(`src/src/data.cpp` lines 76-87): insert-or-assign into `_modifiers`.
(Lean cannot overload the lookup and the registration under one name.) -/
def Data.modifierRegister (d : Data) (name : String) (m : ModifierKind) : Data :=
  { d with _modifiers := mapInsert d._modifiers name m }

/-- `Data::assign` (`src/src/data.cpp`): insert-or-assign into
`_variables`. -/
def Data.assign (d : Data) (name : String) (v : Value) : Data :=
  { d with _variables := mapInsert d._variables name v }

/-- A `Data` with empty variable and modifier maps, i.e. the member state
before the constructor body runs. -/
def Data.blank : Data := ⟨[], []⟩

/-- `Data::Data()` (`src/src/data.cpp` lines 19-26): the constructor
registers the two built-in modifiers under the names "toupper" and
"tolower". -/
def Data.new : Data :=
  (Data.blank.modifierRegister "toupper" .toupper).modifierRegister "tolower" .tolower

/-- `Data::value(name, size)` (`src/src/data.cpp` lines 95-105): look the
name up in `_variables`; `nullptr` when absent. -/
def Data.value (d : Data) (name : String) : Option Value :=
  mapLookup d._variables name

/-- `Data::modifier(name, size)` (`src/src/data.cpp` lines 112-120): look
the name up in `_modifiers`; `nullptr` when absent. -/
def Data.modifier (d : Data) (name : String) : Option ModifierKind :=
  mapLookup d._modifiers name

/-- All values bound in a `Data` are time-independent. -/
def Data.timeIndependent (d : Data) : Bool :=
  d._variables.all (fun p => p.2.timeIndependent)

/-! ## Handler (`src/src/handler.h`) -/

/-- Per-render state.  `_local_values` maps names to `Value *` pointers,
which may be null (the iterate code stores `value->member(i)` unchecked),
hence `Option Value` as the mapped type.  `_iterator_stack` is a stack of
`(key, position)` pairs. -/
structure Handler where
  buffer : String
  data : Data
  localValues : List (String × Option Value)
  iteratorStack : List (String × Nat)

/-- The `Handler(const Data *data)` constructor: empty buffer (the 4 KiB
reserve is a capacity hint only), no locals, no iterators. -/
def Handler.new (data : Data) : Handler := ⟨"", data, [], []⟩

/-- `Handler::write(buffer, size)`: append `size` bytes of `buffer` to the
output. -/
def Handler.write (h : Handler) (buf : String) (size : Nat) : Handler :=
  { h with buffer := h.buffer ++ buf.take size }

/-- `Handler::variable(name, size)` (`src/src/handler.h` lines 109-120):
locals first — and a hit returns the stored pointer even when that pointer
is null — otherwise delegate to `Data::value`. -/
def Handler.variable (h : Handler) (name : String) : Option Value :=
  match mapLookup h.localValues name with
  | some p => p
  | none => h.data.value name

/-- `Handler::modifier(name, size)`: delegation to `Data::modifier`. -/
def Handler.modifier (h : Handler) (name : String) : Option ModifierKind :=
  h.data.modifier name

/-- All non-null locally bound values are time-independent. -/
def localsTimeIndependent (l : List (String × Option Value)) : Bool :=
  l.all (fun p => match p.2 with | some v => v.timeIndependent | none => true)

/-! ## Callback ABI (`src/src/callbacks.cpp`) -/

/-- Models `strncmp(a, b, n) == 0` for null-free byte buffers: the first `n`
bytes of the two buffers agree.  (`strncmp` is libc, not repository code.) -/
def strncmpIsZero (a b : String) (n : Nat) : Bool :=
  a.take n == b.take n

/-- `smart_tpl_strcmp` (`src/src/callbacks.cpp` lines 455-460), transcribed
exactly: when the lengths differ the function returns -1; otherwise it
returns the C++ expression `strncmp(a, b, a_len) == 0`, which converts to 1
when the buffers are equal and 0 when they are not. -/
def smart_tpl_strcmp (a b : String) : Int :=
  if a.length ≠ b.length then -1
  else if strncmpIsZero a b a.length then 1 else 0

/-- `smart_tpl_variable`: look the name up through the handler and return
`&empty` instead of a null result (`result ? result : &empty`). -/
def smart_tpl_variable (h : Handler) (name : String) : Value :=
  (h.variable name).getD .empty

/-- `smart_tpl_member`: fetch the named member and return `&empty` instead
of a null result. -/
def smart_tpl_member (v : Value) (name : String) : Value :=
  (v.member name).getD .empty

/-- `smart_tpl_member_at`: fetch the positional member and return `&empty`
instead of a null result. -/
def smart_tpl_member_at (v : Value) (pos : Nat) : Value :=
  (v.memberAt pos).getD .empty

/-- `smart_tpl_output`: `handler->write(var->toString(), var->size())`. -/
def smart_tpl_output (h : Handler) (v : Value) (now : Int) : Handler :=
  h.write (v.toStringV now) (v.size now)

/-- `smart_tpl_modifier`: look the modifier up through the handler; null
when it is not registered. -/
def smart_tpl_modifier (h : Handler) (name : String) : Option ModifierKind :=
  h.modifier name

/-- `Modifier::modify` for the built-in modifiers.  Modelled from the spec
(§4.9): the `ToUpperModifier`/`ToLowerModifier` implementations are not under
`src/`; user modifiers are left as identity, which no theorem below relies
on. -/
def ModifierKind.modify (m : ModifierKind) (v : Value) : Value :=
  match m, v with
  | .toupper, .vstring s => .vstring s.toUpper
  | .tolower, .vstring s => .vstring s.toLower
  | _, v => v

/-- `smart_tpl_modify_variable` (`src/src/callbacks.cpp` lines 333-350): "In
case the modifier is a nullptr just return the original value"; otherwise
apply the modifier. -/
def smart_tpl_modify_variable (m : Option ModifierKind) (v : Value) : Value :=
  match m with
  | none => v
  | some m => m.modify v

/-- `Bytecode::modifiers` (`src/src/bytecode.cpp`): for each modifier token
in order, look the modifier up by name and run the value through
`smart_tpl_modify_variable`; the result becomes the new current value. -/
def applyModifiers (h : Handler) (v : Value) (mods : List String) : Value :=
  match mods with
  | [] => v
  | m :: rest => applyModifiers h (smart_tpl_modify_variable (smart_tpl_modifier h m) v) rest

/-! ## The libjit exception handler (`src/src/bytecode.cpp` lines 29-64)

The `JIT_RESULT_*` constants are libjit's (jit-common.h); only their values
distinguish the cases of the handler's switch. -/

def JIT_RESULT_OK : Int := 1
def JIT_RESULT_OVERFLOW : Int := 0
def JIT_RESULT_ARITHMETIC : Int := -1
def JIT_RESULT_DIVISION_BY_ZERO : Int := -2
def JIT_RESULT_COMPILE_ERROR : Int := -3
def JIT_RESULT_OUT_OF_MEMORY : Int := -4
def JIT_RESULT_NULL_REFERENCE : Int := -5
def JIT_RESULT_NULL_FUNCTION : Int := -6
def JIT_RESULT_CALLED_NESTED : Int := -7
def JIT_RESULT_OUT_OF_BOUNDS : Int := -8
def JIT_RESULT_UNDEFINED_LABEL : Int := -9

/-- `Bytecode::jit_exception_handler`: translate a libjit exception type to
the human-readable message it throws as a `std::runtime_error`.  The switch
is transcribed case for case; in the embedding "throwing" is returning the
message, and render results carry it in an `Except.error`. -/
def jit_exception_handler (exception_type : Int) : String :=
  if exception_type = JIT_RESULT_OVERFLOW then "Overflow during checked arithmetic operation"
  else if exception_type = JIT_RESULT_ARITHMETIC then "Arithmetic exception (dividing the minimum integer by -1)"
  else if exception_type = JIT_RESULT_DIVISION_BY_ZERO then "Division by zero"
  else if exception_type = JIT_RESULT_COMPILE_ERROR then "Error during function compilation"
  else if exception_type = JIT_RESULT_OUT_OF_MEMORY then "Out of memory"
  else if exception_type = JIT_RESULT_NULL_REFERENCE then "Null pointer dereferenced"
  else if exception_type = JIT_RESULT_NULL_FUNCTION then "Null function pointer called"
  else if exception_type = JIT_RESULT_CALLED_NESTED then "Nested function called from non-nested context"
  else if exception_type = JIT_RESULT_OUT_OF_BOUNDS then "Array index out of bounds"
  else if exception_type = JIT_RESULT_UNDEFINED_LABEL then "Undefined label"
  else if exception_type = JIT_RESULT_OK then "Uhm, success?"
  else "Unknown exception " ++ exception_type.repr

/-- The runtime behaviour of the division instruction `Bytecode::divide`
emits (`l / r`, with no zero check).  The zero case is modelled from the
spec: libjit (external) raises its native `JIT_RESULT_DIVISION_BY_ZERO`
exception, which reaches the registered `jit_exception_handler`; the nonzero
case is C truncating integer division. -/
def jitDivide (l r : Int) : Except String Int :=
  if r = 0 then .error (jit_exception_handler JIT_RESULT_DIVISION_BY_ZERO)
  else .ok (Int.tdiv l r)

/-! ## Generated-code semantics for a template fragment

The AST drives the `Bytecode` generator type-directedly; each constructor
below is one lowered form actually emitted by `src/src/bytecode.cpp`, and
its evaluation is the runtime behaviour of the emitted instructions (all
jit-level values are system integers). -/

inductive Expr where
  | numericLit (n : Int)
  | variableNum (name : String)
  | divide (l r : Expr)
  | greater (l r : Expr)

/-- Runtime evaluation of the code the generator emits for an expression:
`Bytecode::numeric(value)` pushes the constant; `Bytecode::numeric(variable)`
calls the `to_numeric` callback on the variable pointer;
`Bytecode::divide` divides (raising through the jit exception handler on a
zero divisor); `Bytecode::greater` pushes `l > r`. -/
def Expr.eval (e : Expr) (h : Handler) (now : Int) : Except String Int :=
  match e with
  | .numericLit n => .ok n
  | .variableNum name => .ok ((smart_tpl_variable h name).toNumeric now)
  | .divide l r => do
      let lv ← l.eval h now
      let rv ← r.eval h now
      jitDivide lv rv
  | .greater l r => do
      let lv ← l.eval h now
      let rv ← r.eval h now
      .ok (if rv < lv then 1 else 0)

/-- Statements, in the lowered forms `src/src/bytecode.cpp` emits: raw text
(`Bytecode::raw`), output of a numeric expression (`Bytecode::write`),
output of a variable (`Bytecode::output` via `smart_tpl_output`), output of
a filtered variable (`Bytecode::modifiers` then output), and conditions
(`Bytecode::condition`), where the string-typed `==`/`!=` conditions carry
the literal operands that `Bytecode::equals`/`notEquals` lower through the
`strcmp` callback. -/
inductive Stmt where
  | raw (s : String)
  | outputExpr (e : Expr)
  | outputVariable (name : String)
  | outputPipe (name : String) (mods : List String)
  | ifStmt (cond : Expr) (thenB elseB : List Stmt)
  | ifStrEq (a b : String) (thenB elseB : List Stmt)
  | ifStrNe (a b : String) (thenB elseB : List Stmt)

mutual

/-- Run the code generated for one statement.  `raw` writes the buffer with
its size; `outputExpr` converts the numeric result to its decimal string
(modelled from the spec §4.8 — `Bytecode::numericToString` is a `@todo` stub
in this snapshot); `ifStmt` branches on the condition being nonzero
(`insn_branch_if_not`); `ifStrEq`/`ifStrNe` compare `smart_tpl_strcmp`
against zero exactly as `Bytecode::equals`/`notEquals` emit. -/
def execStmt (now : Int) (s : Stmt) (h : Handler) : Except String Handler :=
  match s with
  | .raw s => .ok (h.write s s.length)
  | .outputExpr e => do
      let v ← e.eval h now
      .ok (h.write v.repr v.repr.length)
  | .outputVariable name => .ok (smart_tpl_output h (smart_tpl_variable h name) now)
  | .outputPipe name mods =>
      .ok (smart_tpl_output h (applyModifiers h (smart_tpl_variable h name) mods) now)
  | .ifStmt c t e => do
      let cv ← c.eval h now
      if cv ≠ 0 then execStmts now t h else execStmts now e h
  | .ifStrEq a b t e =>
      if smart_tpl_strcmp a b = 0 then execStmts now t h else execStmts now e h
  | .ifStrNe a b t e =>
      if smart_tpl_strcmp a b ≠ 0 then execStmts now t h else execStmts now e h

/-- Run a `Statements` sequence in order. -/
def execStmts (now : Int) (ss : List Stmt) (h : Handler) : Except String Handler :=
  match ss with
  | [] => .ok h
  | s :: rest => do
      let h1 ← execStmt now s h
      execStmts now rest h1

end

/-- `Template::process(data, encoding)` (`src/src/template.cpp` lines
80-93): construct a fresh `Handler` over the data, run the compiled
template, surface a failed render as a thrown `RunTimeError` (here:
`Except.error`), and otherwise return the handler's output buffer.  The
current time is an explicit parameter standing for the ambient clock
(`std::time(NULL)`) a render may read through a `DateValue`; the `raw`
encoding is fixed (escaping is orthogonal to every claim below). -/
def Template.process (tpl : List Stmt) (data : Data) (now : Int) : Except String String :=
  match execStmts now tpl (Handler.new data) with
  | .ok h => .ok h.buffer
  | .error e => .error e

/-! ## The emitted code for `booleanAnd` / `booleanOr`
(`src/src/bytecode.cpp` lines 650-730)

The two hooks emit straight-line libjit instructions with two labels.  The
instruction list below transcribes the emission order; labels become
instruction indices (`rightlabel` = 4, `endlabel` = 6 = one past the end).
`evalArm` stands for the code of one operand: running it appends the arm to
the evaluation log — the observable "this operand was evaluated" event — and
leaves the arm's boolean in the register the following instructions read. -/

inductive Arm where
  | left
  | right
deriving DecidableEq

inductive Instr where
  | evalArm (a : Arm)
  | branchIfLast (target : Nat)
  | branchIfNotLast (target : Nat)
  | branch (target : Nat)
  | storeResult

structure MachineState where
  last : Bool
  result : Option Bool
  evalLog : List Arm
deriving DecidableEq

/-- One bounded run of a generated instruction list: `fuel` bounds the step
count, the program counter falling off the end is the end label. -/
def runCode (env : Arm → Bool) (code : List Instr) : Nat → Nat → MachineState → Option MachineState
  | 0, _, _ => none
  | fuel + 1, pc, st =>
    match code.get? pc with
    | none => some st
    | some (.evalArm a) =>
        runCode env code fuel (pc + 1) { st with last := env a, evalLog := st.evalLog ++ [a] }
    | some (.branchIfLast t) =>
        runCode env code fuel (if st.last then t else pc + 1) st
    | some (.branchIfNotLast t) =>
        runCode env code fuel (if st.last then pc + 1 else t) st
    | some (.branch t) =>
        runCode env code fuel t st
    | some .storeResult =>
        runCode env code fuel (pc + 1) { st with result := some st.last }

/-- `Bytecode::booleanAnd`: evaluate the left arm; `insn_branch_if(l,
rightlabel)`; store `l` into the result; branch to the end; at the right
label evaluate the right arm and store `r` into the result. -/
def booleanAndCode : List Instr :=
  [.evalArm .left, .branchIfLast 4, .storeResult, .branch 6, .evalArm .right, .storeResult]

/-- `Bytecode::booleanOr`: identical shape, with `insn_branch_if_not(l,
rightlabel)`. -/
def booleanOrCode : List Instr :=
  [.evalArm .left, .branchIfNotLast 4, .storeResult, .branch 6, .evalArm .right, .storeResult]

/-- Run the code `booleanAnd` generates, from a fresh state.  Six
instructions can never need more than seven steps. -/
def runBooleanAnd (env : Arm → Bool) : Option MachineState :=
  runCode env booleanAndCode 7 0 ⟨false, none, []⟩

/-- Run the code `booleanOr` generates, from a fresh state. -/
def runBooleanOr (env : Arm → Bool) : Option MachineState :=
  runCode env booleanOrCode 7 0 ⟨false, none, []⟩

/-! ## `Handler::iterate` (`src/src/handler.h` lines 131-219) -/

/-- The slice of the `Value` interface `Handler::iterate` consults on the
value being iterated: `memberCount()`, `member(position)` and
`key(position)` (the latter two may return null). -/
structure IterValue where
  memberCount : Nat
  member : Nat → Option Value
  key : Nat → Option Value

/-- Direct transcription of `Handler::iterate(value, key, size, keyvar,
keyvar_size)`.  Returns the `bool` the callback turns into 1/0 together with
the updated handler.  The three branches are: empty iterator stack (start a
new iteration), matching top-of-stack key (advance, or finish by popping the
iterator and erasing the magic locals), and non-matching key (start a nested
iteration). -/
def Handler.iterate (h : Handler) (value : IterValue) (key : String)
    (keyvar : String) (keyvar_size : Nat) : Bool × Handler :=
  let len := value.memberCount
  if len = 0 then (false, h)
  else
    match h.iteratorStack with
    | [] =>
        let h1 := { h with iteratorStack := (key, 0) :: h.iteratorStack,
                           localValues := mapInsert h.localValues key (value.member 0) }
        let h2 := if keyvar_size > 0 then
                    match value.key 0 with
                    | some k => { h1 with localValues := mapInsert h1.localValues keyvar (some k) }
                    | none => h1
                  else h1
        (true, h2)
    | (tk, ti) :: rest =>
        if key = tk then
          if ti + 1 ≥ len then
            let h1 := { h with iteratorStack := rest,
                               localValues := mapErase h.localValues key }
            let h2 := if keyvar_size > 0 then
                        { h1 with localValues := mapErase h1.localValues keyvar }
                      else h1
            (false, h2)
          else
            let h1 := { h with iteratorStack := (tk, ti + 1) :: rest,
                               localValues := mapInsert h.localValues key (value.member (ti + 1)) }
            let h2 := if keyvar_size > 0 then
                        match value.key (ti + 1) with
                        | some k => { h1 with localValues := mapInsert h1.localValues keyvar (some k) }
                        | none => h1
                      else h1
            (true, h2)
        else
          let h1 := { h with iteratorStack := (key, 0) :: h.iteratorStack,
                             localValues := mapInsert h.localValues key (value.member 0) }
          let h2 := if keyvar_size > 0 then
                      match value.key 0 with
                      | some k => { h1 with localValues := mapInsert h1.localValues keyvar (some k) }
                      | none => h1
                    else h1
          (true, h2)

/-- The loop protocol of the generated foreach code: call
`smart_tpl_member_iter` (i.e. `Handler::iterate`) before each pass and stop
as soon as it returns 0.  `fuel` bounds the number of calls; `none` means
the fuel ran out before the iterator finished. -/
def runForeach (value : IterValue) (key keyvar : String) (keyvar_size : Nat) :
    Nat → Handler → Option Handler
  | 0, _ => none
  | fuel + 1, h =>
      match h.iterate value key keyvar keyvar_size with
      | (true, h1) => runForeach value key keyvar keyvar_size fuel h1
      | (false, h1) => some h1

/-- A handler whose data binding and local variables hold only
time-independent values. -/
def handlerTimeIndependent (h : Handler) : Prop :=
  Data.timeIndependent h.data = true ∧ localsTimeIndependent h.localValues = true

/-! ## Lemmas about the map model -/

theorem mapLookup_mapErase {α : Type} (l : List (String × α)) (k k2 : String) :
    mapLookup (mapErase l k) k2 = if k2 = k then none else mapLookup l k2 := by
  induction l with
  | nil => simp [mapErase, mapLookup]
  | cons p rest ih =>
      obtain ⟨a, b⟩ := p
      by_cases hak : a = k <;> by_cases h2 : k2 = a <;>
        simp [mapErase, mapLookup, hak, h2, ih] <;> simp_all

theorem mapLookup_mapInsert {α : Type} (l : List (String × α)) (k k2 : String) (v : α) :
    mapLookup (mapInsert l k v) k2 = if k2 = k then some v else mapLookup l k2 := by
  by_cases h2 : k2 = k <;> simp [mapInsert, mapLookup, h2, mapLookup_mapErase]

theorem mapLookup_all {α : Type} (p : α → Bool) (l : List (String × α))
    (hall : l.all (fun q => p q.2) = true) (k : String) (v : α)
    (hfind : mapLookup l k = some v) : p v = true := by
  induction l with
  | nil => simp [mapLookup] at hfind
  | cons q rest ih =>
      obtain ⟨a, b⟩ := q
      simp only [List.all_cons, Bool.and_eq_true] at hall
      by_cases hk : k = a
      · simp [mapLookup, hk] at hfind
        exact hfind ▸ hall.1
      · simp [mapLookup, hk] at hfind
        exact ih hall.2 hfind

/-! ## Reduction of `Except` binds -/

theorem exceptBind_ok {ε α β : Type} (a : α) (f : α → Except ε β) :
    (Except.ok a >>= f) = f a := rfl

theorem exceptBind_error {ε α β : Type} (e : ε) (f : α → Except ε β) :
    ((Except.error e : Except ε α) >>= f) = Except.error e := rfl

/-! ## Time-independence lemmas (for the determinism claim) -/

theorem Value.toStringV_time_indep (v : Value) (hv : v.timeIndependent = true) (n1 n2 : Int) :
    v.toStringV n1 = v.toStringV n2 := by
  cases v <;> simp_all [Value.toStringV, Value.timeIndependent, DateValue.effectiveTime]

theorem Value.toNumeric_time_indep (v : Value) (hv : v.timeIndependent = true) (n1 n2 : Int) :
    v.toNumeric n1 = v.toNumeric n2 := by
  cases v <;> simp_all [Value.toNumeric, Value.timeIndependent, DateValue.toNumeric]

theorem Value.size_time_indep (v : Value) (hv : v.timeIndependent = true) (n1 n2 : Int) :
    v.size n1 = v.size n2 := by
  cases v <;> simp_all [Value.size, Value.toStringV, Value.timeIndependent, DateValue.effectiveTime]

theorem smart_tpl_variable_time_indep (h : Handler) (hti : handlerTimeIndependent h)
    (name : String) : (smart_tpl_variable h name).timeIndependent = true := by
  have hlocals := hti.2
  have hdata0 := hti.1
  unfold localsTimeIndependent at hlocals
  unfold Data.timeIndependent at hdata0
  unfold smart_tpl_variable Handler.variable
  cases hloc : mapLookup h.localValues name with
  | some p =>
      cases p with
      | some v =>
          have := mapLookup_all (fun ov => match ov with | some v => v.timeIndependent | none => true)
            h.localValues hlocals name (some v) hloc
          simpa using this
      | none => rfl
  | none =>
      cases hdata : Data.value h.data name with
      | some v =>
          have hdata1 : mapLookup h.data._variables name = some v := hdata
          have := mapLookup_all (fun v => Value.timeIndependent v) h.data._variables hdata0 name v hdata1
          simpa using this
      | none => rfl

theorem smart_tpl_modify_variable_time_indep (m : Option ModifierKind) (v : Value)
    (hv : v.timeIndependent = true) :
    (smart_tpl_modify_variable m v).timeIndependent = true := by
  cases m with
  | none => exact hv
  | some m => cases m <;> cases v <;> simp_all [smart_tpl_modify_variable, ModifierKind.modify, Value.timeIndependent]

theorem applyModifiers_time_indep (h : Handler) (mods : List String) (v : Value)
    (hv : v.timeIndependent = true) :
    (applyModifiers h v mods).timeIndependent = true := by
  induction mods generalizing v with
  | nil => exact hv
  | cons m rest ih =>
      exact ih _ (smart_tpl_modify_variable_time_indep _ _ hv)

theorem Expr.eval_time_indep (n1 n2 : Int) (e : Expr) (h : Handler)
    (hti : handlerTimeIndependent h) : e.eval h n1 = e.eval h n2 := by
  induction e with
  | numericLit n => rfl
  | variableNum name =>
      simp only [Expr.eval]
      rw [Value.toNumeric_time_indep _ (smart_tpl_variable_time_indep h hti name) n1 n2]
  | divide l r ihl ihr => simp only [Expr.eval]; rw [ihl, ihr]
  | greater l r ihl ihr => simp only [Expr.eval]; rw [ihl, ihr]

mutual

theorem execStmt_time_indep (n1 n2 : Int) (s : Stmt) (h : Handler)
    (hti : handlerTimeIndependent h) :
    execStmt n1 s h = execStmt n2 s h ∧
    (∀ h1, execStmt n1 s h = .ok h1 → h1.localValues = h.localValues ∧ h1.data = h.data) := by
  cases s with
  | raw s =>
      refine ⟨rfl, ?_⟩
      intro h1 heq
      simp only [execStmt, Except.ok.injEq] at heq
      subst heq
      exact ⟨rfl, rfl⟩
  | outputExpr e =>
      have hev := Expr.eval_time_indep n1 n2 e h hti
      constructor
      · simp only [execStmt]
        rw [hev]
      · intro h1 heq
        simp only [execStmt] at heq
        cases hres : e.eval h n1 with
        | error msg => rw [hres, exceptBind_error] at heq; exact absurd heq (by simp)
        | ok v =>
            rw [hres, exceptBind_ok] at heq
            simp only [Except.ok.injEq] at heq
            subst heq
            exact ⟨rfl, rfl⟩
  | outputVariable name =>
      have hv := smart_tpl_variable_time_indep h hti name
      constructor
      · simp only [execStmt, smart_tpl_output, Handler.write,
              Value.toStringV_time_indep _ hv n1 n2, Value.size_time_indep _ hv n1 n2]
      · intro h1 heq
        simp only [execStmt, smart_tpl_output, Handler.write, Except.ok.injEq] at heq
        subst heq
        exact ⟨rfl, rfl⟩
  | outputPipe name mods =>
      have hv := applyModifiers_time_indep h mods _ (smart_tpl_variable_time_indep h hti name)
      constructor
      · simp only [execStmt, smart_tpl_output, Handler.write,
              Value.toStringV_time_indep _ hv n1 n2, Value.size_time_indep _ hv n1 n2]
      · intro h1 heq
        simp only [execStmt, smart_tpl_output, Handler.write, Except.ok.injEq] at heq
        subst heq
        exact ⟨rfl, rfl⟩
  | ifStmt c t e =>
      have hev := Expr.eval_time_indep n1 n2 c h hti
      have ht := execStmts_time_indep n1 n2 t h hti
      have he := execStmts_time_indep n1 n2 e h hti
      constructor
      · simp only [execStmt]
        rw [← hev]
        cases hres : c.eval h n1 with
        | error msg => rw [exceptBind_error, exceptBind_error]
        | ok v =>
            rw [exceptBind_ok, exceptBind_ok]
            by_cases hv : v ≠ 0
            · rw [if_pos hv, if_pos hv, ht.1]
            · rw [if_neg hv, if_neg hv, he.1]
      · intro h1 heq
        simp only [execStmt] at heq
        cases hres : c.eval h n1 with
        | error msg => rw [hres, exceptBind_error] at heq; exact absurd heq (by simp)
        | ok v =>
            rw [hres, exceptBind_ok] at heq
            by_cases hv : v ≠ 0
            · rw [if_pos hv] at heq
              exact ht.2 h1 heq
            · rw [if_neg hv] at heq
              exact he.2 h1 heq
  | ifStrEq a b t e =>
      have ht := execStmts_time_indep n1 n2 t h hti
      have he := execStmts_time_indep n1 n2 e h hti
      constructor
      · by_cases hc : smart_tpl_strcmp a b = 0
        · simp only [execStmt, if_pos hc, ht.1]
        · simp only [execStmt, if_neg hc, he.1]
      · intro h1 heq
        by_cases hc : smart_tpl_strcmp a b = 0
        · simp only [execStmt, if_pos hc] at heq
          exact ht.2 h1 heq
        · simp only [execStmt, if_neg hc] at heq
          exact he.2 h1 heq
  | ifStrNe a b t e =>
      have ht := execStmts_time_indep n1 n2 t h hti
      have he := execStmts_time_indep n1 n2 e h hti
      constructor
      · by_cases hc : smart_tpl_strcmp a b ≠ 0
        · simp [execStmt, hc, ht.1]
        · simp [execStmt, hc, he.1]
      · intro h1 heq
        by_cases hc : smart_tpl_strcmp a b ≠ 0
        · simp only [execStmt, if_pos hc] at heq
          exact ht.2 h1 heq
        · simp only [execStmt, if_neg hc] at heq
          exact he.2 h1 heq

theorem execStmts_time_indep (n1 n2 : Int) (ss : List Stmt) (h : Handler)
    (hti : handlerTimeIndependent h) :
    execStmts n1 ss h = execStmts n2 ss h ∧
    (∀ h1, execStmts n1 ss h = .ok h1 → h1.localValues = h.localValues ∧ h1.data = h.data) := by
  cases ss with
  | nil =>
      refine ⟨rfl, ?_⟩
      intro h1 heq
      simp only [execStmts, Except.ok.injEq] at heq
      subst heq
      exact ⟨rfl, rfl⟩
  | cons s rest =>
      have hs := execStmt_time_indep n1 n2 s h hti
      constructor
      · simp only [execStmts]
        rw [← hs.1]
        cases hres : execStmt n1 s h with
        | error msg => rw [exceptBind_error, exceptBind_error]
        | ok h1 =>
            rw [exceptBind_ok, exceptBind_ok]
            have hpres := hs.2 h1 hres
            have hti1 : handlerTimeIndependent h1 := by
              unfold handlerTimeIndependent
              rw [hpres.1, hpres.2]
              exact hti
            exact (execStmts_time_indep n1 n2 rest h1 hti1).1
      · intro h2 heq
        simp only [execStmts] at heq
        cases hres : execStmt n1 s h with
        | error msg => rw [hres, exceptBind_error] at heq; exact absurd heq (by simp)
        | ok h1 =>
            rw [hres, exceptBind_ok] at heq
            have hpres := hs.2 h1 hres
            have hti1 : handlerTimeIndependent h1 := by
              unfold handlerTimeIndependent
              rw [hpres.1, hpres.2]
              exact hti
            have hrest := (execStmts_time_indep n1 n2 rest h1 hti1).2 h2 heq
            exact ⟨hrest.1.trans hpres.1, hrest.2.trans hpres.2⟩

end

/-! ## The foreach loop protocol: middle-phase induction -/

theorem runForeach_advance (value : IterValue) (key keyvar : String) (kvs : Nat) :
    ∀ (fuel i : Nat) (h : Handler), fuel = value.memberCount - i →
      i < value.memberCount →
      h.iteratorStack = [(key, i)] →
      ∃ hf, runForeach value key keyvar kvs fuel h = some hf
        ∧ mapLookup hf.localValues key = none
        ∧ (0 < kvs → mapLookup hf.localValues keyvar = none)
        ∧ (∀ n, n ≠ key → n ≠ keyvar → mapLookup hf.localValues n = mapLookup h.localValues n)
        ∧ hf.iteratorStack = []
        ∧ hf.buffer = h.buffer
        ∧ hf.data = h.data := by
  intro fuel
  induction fuel with
  | zero =>
      intro i h hfuel hi _
      omega
  | succ fuel ih =>
      intro i h hfuel hi hstack
      obtain ⟨buf, dat, locals, stack⟩ := h
      simp only at hstack
      subst hstack
      have hlen : ¬ (value.memberCount = 0) := by omega
      by_cases hend : i + 1 ≥ value.memberCount
      · -- final call: iterator exhausted, bindings erased
        by_cases hkvs : kvs > 0
        · refine ⟨⟨buf, dat, mapErase (mapErase locals key) keyvar, []⟩, ?_, ?_, ?_, ?_, rfl, rfl, rfl⟩
          · simp [runForeach, Handler.iterate, hlen, hend, hkvs]
          · simp [mapLookup_mapErase]
          · intro hpos
            simp [mapLookup_mapErase]
          · intro n hnk hnkv
            simp [mapLookup_mapErase, hnk, hnkv]
        · refine ⟨⟨buf, dat, mapErase locals key, []⟩, ?_, ?_, ?_, ?_, rfl, rfl, rfl⟩
          · simp [runForeach, Handler.iterate, hlen, hend, hkvs]
          · simp [mapLookup_mapErase]
          · intro hpos
            omega
          · intro n hnk hnkv
            simp [mapLookup_mapErase, hnk]
      · -- middle call: advance the iterator and recurse
        have hi1 : i + 1 < value.memberCount := by omega
        have hfuel1 : fuel = value.memberCount - (i + 1) := by omega
        by_cases hkvs : kvs > 0
        · cases hkey : value.key (i + 1) with
          | some k0 =>
              obtain ⟨hf, hrun, hk, hkv, hothers, hstackf, hbuf, hdat⟩ :=
                ih (i + 1) ⟨buf, dat, mapInsert (mapInsert locals key (value.member (i + 1))) keyvar (some k0), [(key, i + 1)]⟩ hfuel1 hi1 rfl
              refine ⟨hf, ?_, hk, hkv, ?_, hstackf, by simpa using hbuf, by simpa using hdat⟩
              · rw [show runForeach value key keyvar kvs (fuel + 1) ⟨buf, dat, locals, [(key, i)]⟩ =
                      runForeach value key keyvar kvs fuel ⟨buf, dat, mapInsert (mapInsert locals key (value.member (i + 1))) keyvar (some k0), [(key, i + 1)]⟩ from ?_]
                · exact hrun
                · simp [runForeach, Handler.iterate, hlen, hend, hkvs, hkey]
              · intro n hnk hnkv
                rw [hothers n hnk hnkv]
                simp [mapLookup_mapInsert, hnk, hnkv]
          | none =>
              obtain ⟨hf, hrun, hk, hkv, hothers, hstackf, hbuf, hdat⟩ :=
                ih (i + 1) ⟨buf, dat, mapInsert locals key (value.member (i + 1)), [(key, i + 1)]⟩ hfuel1 hi1 rfl
              refine ⟨hf, ?_, hk, hkv, ?_, hstackf, by simpa using hbuf, by simpa using hdat⟩
              · rw [show runForeach value key keyvar kvs (fuel + 1) ⟨buf, dat, locals, [(key, i)]⟩ =
                      runForeach value key keyvar kvs fuel ⟨buf, dat, mapInsert locals key (value.member (i + 1)), [(key, i + 1)]⟩ from ?_]
                · exact hrun
                · simp [runForeach, Handler.iterate, hlen, hend, hkvs, hkey]
              · intro n hnk hnkv
                rw [hothers n hnk hnkv]
                simp [mapLookup_mapInsert, hnk]
        · obtain ⟨hf, hrun, hk, hkv, hothers, hstackf, hbuf, hdat⟩ :=
            ih (i + 1) ⟨buf, dat, mapInsert locals key (value.member (i + 1)), [(key, i + 1)]⟩ hfuel1 hi1 rfl
          refine ⟨hf, ?_, hk, hkv, ?_, hstackf, by simpa using hbuf, by simpa using hdat⟩
          · rw [show runForeach value key keyvar kvs (fuel + 1) ⟨buf, dat, locals, [(key, i)]⟩ =
                  runForeach value key keyvar kvs fuel ⟨buf, dat, mapInsert locals key (value.member (i + 1)), [(key, i + 1)]⟩ from ?_]
            · exact hrun
            · simp [runForeach, Handler.iterate, hlen, hend, hkvs]
          · intro n hnk hnkv
            rw [hothers n hnk hnkv]
            simp [mapLookup_mapInsert, hnk]

/-! ## Claim theorems -/

/-- Claim C1.  The claim states that `smart_tpl_strcmp` returns 0 when the
two byte strings are equal and non-zero when they are not.  The transcribed
source does the opposite: it returns 1 (non-zero) for every pair of equal
strings, 0 for same-length unequal strings, and -1 only when the lengths
differ.  This theorem evaluates the code at the failing inputs. -/
theorem smart_tpl_strcmp_returns_one_for_equal :
    (∀ a : String, smart_tpl_strcmp a a = 1)
    ∧ smart_tpl_strcmp "a" "b" = 0
    ∧ smart_tpl_strcmp "a" "ab" = -1 := by
  refine ⟨?_, rfl, rfl⟩
  intro a
  simp [smart_tpl_strcmp, strncmpIsZero]

/-- Claim C2.  The claim states that rendering
`{if "a" == "b"}t{else}f{/if}` produces "f" and the `!=` variant produces
"t".  `Bytecode::equals` does lower string equality as "call the strcmp
callback and compare the result with 0", but composed with
`smart_tpl_strcmp` — which returns 0 exactly for same-length unequal
strings — the `==` test renders "t" and the `!=` test renders "f", for
every data binding and render time: the code contradicts the claim and its
own tests (`RunTime.StringComparisonEquals` and
`RunTime.StringComparisonNotEquals` in `test/runtime.cpp`). -/
theorem string_comparison_renders_inverted :
    ∀ (data : Data) (now : Int),
      Template.process [Stmt.ifStrEq "a" "b" [Stmt.raw "t"] [Stmt.raw "f"]] data now = Except.ok "t"
      ∧ Template.process [Stmt.ifStrNe "a" "b" [Stmt.raw "t"] [Stmt.raw "f"]] data now = Except.ok "f" :=
  fun _ _ => ⟨rfl, rfl⟩

/-- Claim C3.  The claim states that every boolean value object converts to
numeric 1 when true and 0 when false.  `BoolValue` (`boolvalue.h`) does so,
but `BooleanValue` (`boolean.h`) returns 0 for both booleans, so
`BooleanValue(true).toNumeric()` is 0 where the claim requires 1. -/
theorem boolean_toNumeric_inconsistent :
    BooleanValue.toNumeric true = 0
    ∧ BooleanValue.toNumeric true ≠ 1
    ∧ BooleanValue.toNumeric false = 0
    ∧ BoolValue.toNumeric true = 1
    ∧ BoolValue.toNumeric false = 0 :=
  ⟨rfl, by decide, rfl, rfl, rfl⟩

/-- Claim C4.  The value-returning lookup callbacks are total functions into
`Value` (transcribing `result ? result : &empty`), so generated code never
observes a null value pointer; when a name is bound neither in the handler's
local variables nor in the `Data`, `smart_tpl_variable` yields the shared
empty value, whose output leaves the buffer unchanged, and the member
callbacks likewise yield the empty value whenever the underlying
`Value::member` returns null. -/
theorem missing_lookup_resolves_to_empty (h : Handler) (name : String) (now : Int)
    (hloc : mapLookup h.localValues name = none)
    (hdata : Data.value h.data name = none) :
    smart_tpl_variable h name = Value.empty
    ∧ (smart_tpl_output h (smart_tpl_variable h name) now).buffer = h.buffer
    ∧ (∀ v : Value, v.member name = none → smart_tpl_member v name = Value.empty)
    ∧ (∀ (v : Value) (pos : Nat), v.memberAt pos = none → smart_tpl_member_at v pos = Value.empty) := by
  have hvar : smart_tpl_variable h name = Value.empty := by
    simp [smart_tpl_variable, Handler.variable, hloc, hdata]
  refine ⟨hvar, ?_, ?_, ?_⟩
  · rw [hvar]
    simp [smart_tpl_output, Handler.write, Value.toStringV, Value.size,
          show ("" : String).take 0 = "" from rfl, String.append_empty]
  · intro v hv
    simp [smart_tpl_member, hv]
  · intro v pos hv
    simp [smart_tpl_member_at, hv]

/-- Witness for C4 at a concrete input: a fresh handler over a fresh `Data`
and the name "does_not_exist". -/
theorem missing_lookup_resolves_to_empty_witness :
    mapLookup (Handler.new Data.new).localValues "does_not_exist" = none
    ∧ Data.value (Handler.new Data.new).data "does_not_exist" = none
    ∧ smart_tpl_variable (Handler.new Data.new) "does_not_exist" = Value.empty
    ∧ (smart_tpl_output (Handler.new Data.new)
        (smart_tpl_variable (Handler.new Data.new) "does_not_exist") 0).buffer
        = (Handler.new Data.new).buffer :=
  ⟨rfl, rfl,
    (missing_lookup_resolves_to_empty (Handler.new Data.new) "does_not_exist" 0 rfl rfl).1,
    (missing_lookup_resolves_to_empty (Handler.new Data.new) "does_not_exist" 0 rfl rfl).2.1⟩

/-- Claim C5.  Rendering `{1/0}` — the output statement over the division
the generator emits for `1/0` — produces the runtime error carrying exactly
the message the registered `jit_exception_handler` builds for libjit's
`JIT_RESULT_DIVISION_BY_ZERO`, for every data binding and render time; the
render returns an error value rather than terminating. -/
theorem divide_by_zero_raises_runtime_error :
    ∀ (data : Data) (now : Int),
      Template.process [Stmt.outputExpr (Expr.divide (Expr.numericLit 1) (Expr.numericLit 0))] data now
        = Except.error "Division by zero"
      ∧ jit_exception_handler JIT_RESULT_DIVISION_BY_ZERO = "Division by zero" :=
  fun _ _ => ⟨rfl, rfl⟩

/-- Counterexample for C6.  The claim states that a chain naming an
unregistered modifier raises a RuntimeError from `process`.  On a `Data`
that binds only "x" (so "missing" is not a registered modifier), rendering
the pipe `{$x|missing}` succeeds with the unmodified value — no error is
raised. -/
theorem missing_modifier_no_error_cex :
    Data.modifier (Data.new.assign "x" (Value.vstring "abc")) "missing" = none
    ∧ Template.process [Stmt.outputPipe "x" ["missing"]]
        (Data.new.assign "x" (Value.vstring "abc")) 0 = Except.ok "abc" :=
  ⟨rfl, rfl⟩

/-- Claim C6, amended.  When the named modifier is not registered,
`smart_tpl_modifier` returns a null handle and `smart_tpl_modify_variable`
passes the input value through unchanged (the "In case the modifier is a
nullptr just return the original value" branch); no error is raised. -/
theorem missing_modifier_passes_value_through (h : Handler) (v : Value) (name : String)
    (hmod : h.modifier name = none) :
    smart_tpl_modifier h name = none
    ∧ smart_tpl_modify_variable (smart_tpl_modifier h name) v = v
    ∧ applyModifiers h v [name] = v := by
  simp [smart_tpl_modifier, hmod, smart_tpl_modify_variable, applyModifiers]

/-- Witness for the amended C6 at a concrete input. -/
theorem missing_modifier_passes_value_through_witness :
    (Handler.new Data.new).modifier "missing" = none
    ∧ applyModifiers (Handler.new Data.new) (Value.vstring "abc") ["missing"] = Value.vstring "abc" :=
  ⟨rfl,
    (missing_modifier_passes_value_through (Handler.new Data.new) (Value.vstring "abc") "missing" rfl).2.2⟩

/-- Counterexample for C7.  The claim states that two `process` calls on
the same (template, data, encoding) triple yield byte-identical output.
With `d` bound to a `DateValue` whose stored timestamp is 0,
`DateValue::toNumeric` reads the current clock (`std::time(NULL)`), so the
same triple rendered at clock values 3 and 100 yields "f" and then "t". -/
theorem process_depends_on_render_time_cex :
    Template.process
        [Stmt.ifStmt (Expr.greater (Expr.variableNum "d") (Expr.numericLit 5)) [Stmt.raw "t"] [Stmt.raw "f"]]
        (Data.new.assign "d" (Value.vdate "%Y-%m-%d" 0)) 3
    ≠ Template.process
        [Stmt.ifStmt (Expr.greater (Expr.variableNum "d") (Expr.numericLit 5)) [Stmt.raw "t"] [Stmt.raw "f"]]
        (Data.new.assign "d" (Value.vdate "%Y-%m-%d" 0)) 100 := by
  intro hcontra
  rw [show Template.process
        [Stmt.ifStmt (Expr.greater (Expr.variableNum "d") (Expr.numericLit 5)) [Stmt.raw "t"] [Stmt.raw "f"]]
        (Data.new.assign "d" (Value.vdate "%Y-%m-%d" 0)) 3 = Except.ok "f" from rfl,
      show Template.process
        [Stmt.ifStmt (Expr.greater (Expr.variableNum "d") (Expr.numericLit 5)) [Stmt.raw "t"] [Stmt.raw "f"]]
        (Data.new.assign "d" (Value.vdate "%Y-%m-%d" 0)) 100 = Except.ok "t" from rfl] at hcontra
  exact absurd (Except.ok.inj hcontra) (by decide)

/-- Claim C7, amended.  Rendering is a deterministic function of
(template, data, render time): each call builds a fresh `Handler` and never
mutates the `Data`, so whenever the data binds no render-time-dependent
value (no `DateValue` with stored timestamp 0), two `process` calls — even
at different clock values — yield byte-identical output. -/
theorem process_deterministic_given_time_independent_data (tpl : List Stmt) (data : Data)
    (n1 n2 : Int) (hti : Data.timeIndependent data = true) :
    Template.process tpl data n1 = Template.process tpl data n2 := by
  have h0 : handlerTimeIndependent (Handler.new data) := ⟨hti, rfl⟩
  unfold Template.process
  rw [(execStmts_time_indep n1 n2 tpl (Handler.new data) h0).1]

/-- Witness for the amended C7 at a concrete input: a template that outputs
a string-bound variable renders identically at clock values 0 and 42. -/
theorem process_deterministic_witness :
    Data.timeIndependent (Data.new.assign "x" (Value.vstring "hi")) = true
    ∧ Template.process [Stmt.outputVariable "x"] (Data.new.assign "x" (Value.vstring "hi")) 0
      = Template.process [Stmt.outputVariable "x"] (Data.new.assign "x" (Value.vstring "hi")) 42 :=
  ⟨rfl,
    process_deterministic_given_time_independent_data [Stmt.outputVariable "x"]
      (Data.new.assign "x" (Value.vstring "hi")) 0 42 rfl⟩

/-- Claim C8.  Running the instruction sequences `Bytecode::booleanAnd` and
`Bytecode::booleanOr` emit: the right arm is evaluated (appears in the
evaluation log) exactly when the left arm does not already determine the
result — for `&&` only when the left arm is true, for `||` only when the
left arm is false — and the stored result is the short-circuit boolean. -/
theorem short_circuit_boolean_operators (env : Arm → Bool) :
    (env Arm.left = false → runBooleanAnd env = some ⟨false, some false, [Arm.left]⟩)
    ∧ (env Arm.left = true →
        runBooleanAnd env = some ⟨env Arm.right, some (env Arm.right), [Arm.left, Arm.right]⟩)
    ∧ (env Arm.left = true → runBooleanOr env = some ⟨true, some true, [Arm.left]⟩)
    ∧ (env Arm.left = false →
        runBooleanOr env = some ⟨env Arm.right, some (env Arm.right), [Arm.left, Arm.right]⟩) := by
  refine ⟨?_, ?_, ?_, ?_⟩ <;> intro hl <;>
    simp [runBooleanAnd, runBooleanOr, runCode, booleanAndCode, booleanOrCode, hl]

/-- Witness for C8 at concrete environments: with a false left arm the
`&&` code logs only the left arm; with a true left arm the `||` code logs
only the left arm. -/
theorem short_circuit_boolean_operators_witness :
    ((fun _ : Arm => false) Arm.left = false
      ∧ runBooleanAnd (fun _ : Arm => false) = some ⟨false, some false, [Arm.left]⟩)
    ∧ ((fun _ : Arm => true) Arm.left = true
      ∧ runBooleanOr (fun _ : Arm => true) = some ⟨true, some true, [Arm.left]⟩) :=
  ⟨⟨rfl, (short_circuit_boolean_operators (fun _ : Arm => false)).1 rfl⟩,
   ⟨rfl, (short_circuit_boolean_operators (fun _ : Arm => true)).2.2.1 rfl⟩⟩

/-- Claim C9.  For a foreach over a value with at least one member, starting
with an empty iterator stack, the loop protocol terminates, and in the final
handler the value variable and — when a key variable was requested
(`keyvar_size > 0`) — the key variable are absent from the local-variable
map, while every other name still resolves exactly as before the loop; the
iterator stack, output buffer and data binding are as before the loop. -/
theorem foreach_removes_induction_bindings (value : IterValue) (key keyvar : String)
    (kvs : Nat) (h : Handler)
    (hlen : 1 ≤ value.memberCount) (hstack : h.iteratorStack = []) :
    ∃ hf, runForeach value key keyvar kvs (value.memberCount + 1) h = some hf
      ∧ mapLookup hf.localValues key = none
      ∧ (0 < kvs → mapLookup hf.localValues keyvar = none)
      ∧ (∀ n, n ≠ key → n ≠ keyvar → mapLookup hf.localValues n = mapLookup h.localValues n)
      ∧ hf.iteratorStack = []
      ∧ hf.buffer = h.buffer
      ∧ hf.data = h.data := by
  obtain ⟨buf, dat, locals, stack⟩ := h
  simp only at hstack
  subst hstack
  have hlen0 : ¬ (value.memberCount = 0) := by omega
  have hfuel0 : value.memberCount = value.memberCount - 0 := by omega
  have hi0 : 0 < value.memberCount := by omega
  by_cases hkvs : kvs > 0
  · cases hkey : value.key 0 with
    | some k0 =>
        obtain ⟨hf, hrun, hk, hkv, hothers, hstackf, hbuf, hdat⟩ :=
          runForeach_advance value key keyvar kvs value.memberCount 0
            ⟨buf, dat, mapInsert (mapInsert locals key (value.member 0)) keyvar (some k0), [(key, 0)]⟩
            hfuel0 hi0 rfl
        refine ⟨hf, ?_, hk, hkv, ?_, hstackf, by simpa using hbuf, by simpa using hdat⟩
        · rw [show runForeach value key keyvar kvs (value.memberCount + 1) ⟨buf, dat, locals, []⟩ =
                runForeach value key keyvar kvs value.memberCount
                  ⟨buf, dat, mapInsert (mapInsert locals key (value.member 0)) keyvar (some k0), [(key, 0)]⟩ from ?_]
          · exact hrun
          · simp [runForeach, Handler.iterate, hlen0, hkvs, hkey]
        · intro n hnk hnkv
          rw [hothers n hnk hnkv]
          simp [mapLookup_mapInsert, hnk, hnkv]
    | none =>
        obtain ⟨hf, hrun, hk, hkv, hothers, hstackf, hbuf, hdat⟩ :=
          runForeach_advance value key keyvar kvs value.memberCount 0
            ⟨buf, dat, mapInsert locals key (value.member 0), [(key, 0)]⟩ hfuel0 hi0 rfl
        refine ⟨hf, ?_, hk, hkv, ?_, hstackf, by simpa using hbuf, by simpa using hdat⟩
        · rw [show runForeach value key keyvar kvs (value.memberCount + 1) ⟨buf, dat, locals, []⟩ =
                runForeach value key keyvar kvs value.memberCount
                  ⟨buf, dat, mapInsert locals key (value.member 0), [(key, 0)]⟩ from ?_]
          · exact hrun
          · simp [runForeach, Handler.iterate, hlen0, hkvs, hkey]
        · intro n hnk hnkv
          rw [hothers n hnk hnkv]
          simp [mapLookup_mapInsert, hnk]
  · obtain ⟨hf, hrun, hk, hkv, hothers, hstackf, hbuf, hdat⟩ :=
      runForeach_advance value key keyvar kvs value.memberCount 0
        ⟨buf, dat, mapInsert locals key (value.member 0), [(key, 0)]⟩ hfuel0 hi0 rfl
    refine ⟨hf, ?_, hk, hkv, ?_, hstackf, by simpa using hbuf, by simpa using hdat⟩
    · rw [show runForeach value key keyvar kvs (value.memberCount + 1) ⟨buf, dat, locals, []⟩ =
            runForeach value key keyvar kvs value.memberCount
              ⟨buf, dat, mapInsert locals key (value.member 0), [(key, 0)]⟩ from ?_]
      · exact hrun
      · simp [runForeach, Handler.iterate, hlen0, hkvs]
    · intro n hnk hnkv
      rw [hothers n hnk hnkv]
      simp [mapLookup_mapInsert, hnk]

/-- Witness for C9 at a concrete input: a two-member value iterated with
value variable "item" and key variable "key". -/
theorem foreach_removes_induction_bindings_witness :
    1 ≤ (IterValue.mk 2 (fun i => some (Value.vnumeric (Int.ofNat i))) (fun _ => some (Value.vstring "k"))).memberCount
    ∧ (Handler.new Data.new).iteratorStack = []
    ∧ ∃ hf, runForeach
          (IterValue.mk 2 (fun i => some (Value.vnumeric (Int.ofNat i))) (fun _ => some (Value.vstring "k")))
          "item" "key" 3
          ((IterValue.mk 2 (fun i => some (Value.vnumeric (Int.ofNat i))) (fun _ => some (Value.vstring "k"))).memberCount + 1)
          (Handler.new Data.new) = some hf
        ∧ mapLookup hf.localValues "item" = none
        ∧ (0 < 3 → mapLookup hf.localValues "key" = none)
        ∧ (∀ n, n ≠ "item" → n ≠ "key" →
            mapLookup hf.localValues n = mapLookup (Handler.new Data.new).localValues n)
        ∧ hf.iteratorStack = []
        ∧ hf.buffer = (Handler.new Data.new).buffer
        ∧ hf.data = (Handler.new Data.new).data :=
  ⟨by decide, rfl,
    foreach_removes_induction_bindings
      (IterValue.mk 2 (fun i => some (Value.vnumeric (Int.ofNat i))) (fun _ => some (Value.vstring "k")))
      "item" "key" 3 (Handler.new Data.new) (by decide) rfl⟩

/-- Claim C10.  A freshly constructed `Data` already contains the two
built-in modifiers under the names "toupper" and "tolower" — registered by
the constructor itself, since the pre-constructor state has an empty
modifier map. -/
theorem data_constructor_registers_builtin_modifiers :
    Data.modifier Data.new "toupper" = some ModifierKind.toupper
    ∧ Data.modifier Data.new "tolower" = some ModifierKind.tolower
    ∧ Data.modifier Data.blank "toupper" = none
    ∧ Data.modifier Data.blank "tolower" = none :=
  ⟨rfl, rfl, rfl, rfl⟩

end SmartTpl
